import Mathlib

/-!
Verification of the vibetools reconciliation engine.

This file gives a shallow embedding of the conflict-detection and
resolution core of the vibetools CLI: the identity comparator
(src/sync/hash.ts), the filter engine (src/sync/filters.ts), the
filesystem helpers consumed by the drivers (src/sync/fs.ts,
src/sync/symlink.ts), and the conflict resolvers of the two
reconciliation directions (src/commands/install.ts and
src/commands/collect.ts).

Modelling conventions:
- A filesystem entry is an inductive tree FSObj.  The lstat view of a
  path is an Option FSObj (none = lstat throws, i.e. the path is absent
  or unreachable).  Readability failures are explicit Bool flags on
  file and dir nodes; a symlink whose readlink call fails carries
  target none.
- The SHA-256 digest is abstracted by the exact byte stream the code
  feeds into the hash (collision-freeness of SHA-256 is assumed, so
  digest equality is modelled as equality of the hashed streams).
- The JavaScript localeCompare comparator (which is locale dependent;
  the code only relies on it being a fixed total order) is modelled by
  the lexicographic order on the underlying character lists.
- Thrown exceptions are modelled with Except; the error value is the
  exitCode of the VibetoolsError that the command boundary would
  receive (src/util/errors.ts, src/cli.ts).
- Interactive prompts are modelled by passing the final user answer as
  an explicit argument; the value cancelled models an explicit
  cancel/interrupt during the prompt (the prompts library then yields
  an answers object with an undefined field when no onCancel handler is
  installed, and calls the onCancel handler when one is).
- Filesystem effects are not performed; every operation that would
  mutate the filesystem is recorded in an FsAction trace instead.
-/

namespace Vibetools

/-- DEFAULT_IGNORE_BASENAMES from src/sync/ignore.ts.  That file is not
part of the provided sources; the set is modelled from the repository
gitignore contents written by init.ts.  No theorem below depends on the
exact membership of this set. -/
def DEFAULT_IGNORE_BASENAMES : List String := [".DS_Store", "Thumbs.db"]

/-- Membership test used where the code calls DEFAULT_IGNORE_BASENAMES.has. -/
def isIgnored (name : String) : Bool := DEFAULT_IGNORE_BASENAMES.contains name

/-- A filesystem object as seen through lstat, one level of naming per
directory.  The readable flags model whether reading the contents
(readFile for files, readdir for directories) succeeds; a symlink whose
readlink fails has target none. -/
inductive FSObj where
  | file (readable : Bool) (content : String)
  | symlink (target : Option String)
  | dir (readable : Bool) (children : List (String × FSObj))

/-- HashSummary from src/sync/hash.ts.  The sha256 field holds the byte
stream fed to the hash rather than its digest (injective-hash
abstraction). -/
inductive HashSummary where
  | missing
  | symlink (target : Option String)
  | file (sha256 : String) (bytes : Nat)
  | dir (sha256 : String) (files : Nat)
deriving DecidableEq

/-- What the directory walk records for one relative path: either the
full file contents, or the link target text of a symlink (the code
records the link itself and never dereferences it). -/
inductive WalkLeaf where
  | file (content : String)
  | link (target : String)
deriving DecidableEq

/-- A relative path inside a directory walk, as a list of name
components (the code joins them with a path separator). -/
abbrev RelPath := List String

/-- Order key of a relative path: the character lists of its
components.  This models the localeCompare-based sort as a fixed total
order (see the header). -/
def pathKey (p : RelPath) : List (List Char) := p.map String.data

/-- Comparator used to sort walk results by relative path, as
walkDir does with toSorted(localeCompare). -/
def keyLE (a b : RelPath × WalkLeaf) : Prop := pathKey a.1 ≤ pathKey b.1

/-- Strict version of keyLE, used to show sorted walks are unique. -/
def keyLT (a b : RelPath × WalkLeaf) : Prop := pathKey a.1 < pathKey b.1

instance : DecidableRel keyLE := fun a b => by unfold keyLE; infer_instance

instance : DecidableRel keyLT := fun a b => by unfold keyLT; infer_instance

/-- Distinctness of the relative paths of two walk results. -/
def keyNe (a b : RelPath × WalkLeaf) : Prop := a.1 ≠ b.1

instance : IsTotal (RelPath × WalkLeaf) keyLE :=
  ⟨fun a b => le_total (pathKey a.1) (pathKey b.1)⟩

instance : IsTrans (RelPath × WalkLeaf) keyLE :=
  ⟨fun _ _ _ h1 h2 => le_trans h1 h2⟩

instance : IsAntisymm (RelPath × WalkLeaf) keyLT :=
  ⟨fun _ _ h1 h2 => absurd h2 (lt_asymm h1)⟩

/-- Sorting of walk results by relative path (files.toSorted in
walkDir, src/sync/hash.ts line 52). -/
def sortWalk (l : List (RelPath × WalkLeaf)) : List (RelPath × WalkLeaf) :=
  List.insertionSort keyLE l

/-! walkDir and the per-entry re-reads of hashDirectory
(src/sync/hash.ts lines 30-53 and 58-69), fused: the walk of one child
returns the relative paths it contributes together with the leaf data
the digest loop later re-reads at those paths.  walkObj name o is the
contribution of a child named name holding object o; walkChildrenP is
the loop body over one directory listing.  Like walkDir, every
directory sorts its accumulated result.  This is the total version used
for readable trees; walkObjE below models the failure behaviour. -/
mutual
def walkObj (name : String) : FSObj → List (RelPath × WalkLeaf)
  | .file _ c => [([name], .file c)]
  | .symlink t => [([name], .link (t.getD ""))]
  | .dir _ ch =>
      (sortWalk (walkChildrenP ch)).map (fun q => (name :: q.1, q.2))
def walkChildrenP : List (String × FSObj) → List (RelPath × WalkLeaf)
  | [] => []
  | (n, o) :: rest =>
      (if isIgnored n then [] else walkObj n o) ++ walkChildrenP rest
end

/-! Failure-aware version of the walk: readdir on an unreadable
directory throws, readFile of an unreadable file throws, and readlink
of a symlink with target none throws (in hashDirectory the readlink of
a walked child is not caught).  All of these propagate to the try/catch
of hashEntry. -/
mutual
def walkObjE (name : String) : FSObj → Except Unit (List (RelPath × WalkLeaf))
  | .file r c => if r then .ok [([name], .file c)] else .error ()
  | .symlink t =>
      match t with
      | some tg => .ok [([name], .link tg)]
      | none => .error ()
  | .dir r ch =>
      if r then
        (walkChildrenE ch).map
          (fun l => (sortWalk l).map (fun q => (name :: q.1, q.2)))
      else .error ()
def walkChildrenE : List (String × FSObj) → Except Unit (List (RelPath × WalkLeaf))
  | [] => .ok []
  | (n, o) :: rest => do
      let h ← if isIgnored n then .ok [] else walkObjE n o
      let t ← walkChildrenE rest
      .ok (h ++ t)
end

/-- Rendering of a relative path as the code joins it. -/
def joinPath (p : RelPath) : String := String.intercalate "/" p

/-- The byte stream hashDirectory feeds to the hash: for each sorted
relative path, the path, then the link target prefixed by an arrow for
symlinks or the file contents otherwise, then a newline. -/
def serializeWalk (l : List (RelPath × WalkLeaf)) : String :=
  String.join (l.map (fun q =>
    joinPath q.1 ++
      (match q.2 with
       | .link t => "->" ++ t
       | .file c => c) ++ "\n"))

/-- The body of hashEntry before its catch-all (src/sync/hash.ts lines
75-88): lstat, then hashSymlink (which catches its own readlink
failure, yielding target none), hashDirectory, or sha256File.  An
Except error is any exception reaching the try/catch of hashEntry. -/
def classifyE : Option FSObj → Except Unit HashSummary
  | none => .error ()
  | some (.symlink t) => .ok (.symlink t)
  | some (.file r c) => if r then .ok (.file c c.length) else .error ()
  | some (.dir r ch) =>
      if r then
        (walkChildrenE ch).map
          (fun l => .dir (serializeWalk (sortWalk l)) (sortWalk l).length)
      else .error ()

/-- hashEntry from src/sync/hash.ts: the classification body wrapped in
try/catch, every failure degrading to the missing identity. -/
def hashEntry (o : Option FSObj) : HashSummary :=
  match classifyE o with
  | .ok s => s
  | .error _ => .missing

/-- areHashesEqual from src/sync/hash.ts lines 91-121: same kind and
same payload; missing equals missing; sizes and file counts are not
compared. -/
def areHashesEqual : HashSummary → HashSummary → Bool
  | .missing, .missing => true
  | .symlink t1, .symlink t2 => t1 == t2
  | .file s1 _, .file s2 _ => s1 == s2
  | .dir s1 _, .dir s2 _ => s1 == s2
  | _, _ => false

/-- Boolean no-duplicates check on a list of names. -/
def nodupNames : List String → Bool
  | [] => true
  | n :: rest => !rest.contains n && nodupNames rest

/-! Well-formedness of a tree: every node is readable, every symlink
has a readable target text, and the names in every directory listing
are distinct (as readdir guarantees on a real filesystem). -/
mutual
def FSObj.wf : FSObj → Bool
  | .file r _ => r
  | .symlink t => t.isSome
  | .dir r ch => r && nodupNames (ch.map Prod.fst) && wfChildren ch
def wfChildren : List (String × FSObj) → Bool
  | [] => true
  | (_, o) :: rest => o.wf && wfChildren rest
end

/-- Name-based comparator for canonicalizing directory listings. -/
def nameLE (a b : String × FSObj) : Prop := a.1.data ≤ b.1.data

instance : DecidableRel nameLE := fun a b => by unfold nameLE; infer_instance

/-! Canonical form of a tree: every directory listing recursively
sorted by child name.  Two well-formed trees have the same canonical
form exactly when they are the same logical tree presented in possibly
different directory enumeration orders. -/
mutual
def FSObj.canon : FSObj → FSObj
  | .file r c => .file r c
  | .symlink t => .symlink t
  | .dir r ch => .dir r (List.insertionSort nameLE (canonChildren ch))
def canonChildren : List (String × FSObj) → List (String × FSObj)
  | [] => []
  | (n, o) :: rest => (n, o.canon) :: canonChildren rest
end

/-! Filesystem and symlink helpers (src/sync/fs.ts, src/sync/symlink.ts).

An EntrySide is everything the resolvers observe about one path: its
lstat view and its fs.realpath result (none = realpath throws, e.g. an
absent path or a dangling symlink). -/

structure EntrySide where
  obj : Option FSObj
  realpath : Option String

/-- pathExists from src/sync/fs.ts: lstat succeeds. -/
def pathExists (e : EntrySide) : Bool := e.obj.isSome

/-- isSymlink from src/sync/symlink.ts: lstat succeeds and reports a
symbolic link (false when lstat throws). -/
def isSymlink (e : EntrySide) : Bool :=
  match e.obj with
  | some (.symlink _) => true
  | _ => false

/-- sameRealpath from src/sync/symlink.ts: both realpath calls succeed
and agree (false when either throws). -/
def sameRealpath (a b : EntrySide) : Bool :=
  match a.realpath, b.realpath with
  | some ra, some rb => ra == rb
  | _, _ => false

/-- listTopLevelEntries from src/sync/fs.ts lines 19-28: an absent
directory yields the empty list; otherwise the readdir names minus the
ignored basenames, sorted.  The argument is the readdir listing, none
when pathExists is false. -/
def listTopLevelEntries (dir : Option (List String)) : List String :=
  match dir with
  | none => []
  | some names =>
      List.insertionSort (fun a b : String => a.data ≤ b.data)
        (names.filter (fun n => !isIgnored n))

/-! Filter engine (src/sync/filters.ts).

The code delegates matching of one pattern to the external picomatch
library with option dot true.  Modelled from the spec: shell-style
globs where ? matches one character other than the separator, * matches
a run of characters without the separator, a leading ** matches any
run, and dotfiles are matched like any other name. -/

/-- All splittings of a character list into a prefix and a suffix. -/
def splits : List Char → List (List Char × List Char)
  | [] => [([], [])]
  | c :: rest => ([], c :: rest) :: (splits rest).map (fun q => (c :: q.1, q.2))

/-- Glob matching of one pattern against one name, modelling picomatch
with the dot option enabled (no special-casing of leading dots). -/
def globMatch : List Char → List Char → Bool
  | [], s => s.isEmpty
  | '*' :: '*' :: ps, s => (splits s).any (fun q => globMatch ps q.2)
  | '*' :: ps, s =>
      (splits s).any (fun q => !q.1.contains '/' && globMatch ps q.2)
  | '?' :: ps, c :: s => c != '/' && globMatch ps s
  | '?' :: _, [] => false
  | c :: ps, d :: s => c == d && globMatch ps s
  | _ :: _, [] => false

/-- Filters from src/config/types.ts (the include and exclude glob
lists of one agent and artifact type). -/
structure Filters where
  includeGlobs : List String
  excludeGlobs : List String

/-- applyFilters from src/sync/filters.ts: an empty include list
defaults to the match-everything pattern, an empty exclude list to a
predicate that is constantly false; a name survives when some include
pattern matches it and no exclude pattern does. -/
def applyFilters (entries : List String) (filters : Filters) : List String :=
  let incs := if filters.includeGlobs.isEmpty then ["**"] else filters.includeGlobs
  let isIncluded := fun (name : String) => incs.any (fun p => globMatch p.data name.data)
  let isExcluded := fun (name : String) =>
    if filters.excludeGlobs.isEmpty then false
    else filters.excludeGlobs.any (fun p => globMatch p.data name.data)
  entries.filter (fun name => isIncluded name && !isExcluded name)

/-! Conflict resolution, install direction (src/commands/install.ts). -/

/-- ConflictPolicy from src/config/types.ts. -/
inductive ConflictPolicy where
  | prompt
  | repoWins
  | localWins
deriving DecidableEq

/-- InstallMode from src/config/types.ts. -/
inductive InstallMode where
  | symlink
  | copy
deriving DecidableEq

/-- SymlinkFallback from src/config/types.ts. -/
inductive SymlinkFallback where
  | copy
  | error
  | prompt
deriving DecidableEq

/-- ConflictDecision from src/commands/install.ts line 46. -/
inductive ConflictDecision where
  | replace
  | skip
  | abort
deriving DecidableEq

/-- The final selection a user makes in a conflict prompt, after any
number of show-diff round trips (the diff choice only re-enters the
prompt loop and never decides).  cancelled models an explicit
cancel or interrupt during the prompt. -/
inductive PromptAnswer where
  | proceed
  | skip
  | abort
  | cancelled
deriving DecidableEq

/-- The answer to the symlink-fallback prompt of installOne. -/
inductive FallbackAnswer where
  | copy
  | abort
  | cancelled
deriving DecidableEq

/-- decideConflict from src/commands/install.ts lines 72-113: force
short-circuits to replace; otherwise the prompt runs with no onCancel
handler, so a cancelled prompt yields an undefined decision, modelled
as none.  The show-diff loop is folded into the final answer. -/
def decideConflict (force : Bool) (answer : PromptAnswer) : Option ConflictDecision :=
  if force then some .replace
  else
    match answer with
    | .proceed => some .replace
    | .skip => some .skip
    | .abort => some .abort
    | .cancelled => none

/-- isCorrectSymlink from src/commands/install.ts lines 115-117. -/
def isCorrectSymlink (dest src : EntrySide) : Bool :=
  isSymlink dest && sameRealpath dest src

/-- isIdenticalCopy from src/commands/install.ts lines 119-128: false
for a symlinked destination, otherwise hash equality of both sides. -/
def isIdenticalCopy (src dest : EntrySide) : Bool :=
  if isSymlink dest then false
  else areHashesEqual (hashEntry src.obj) (hashEntry dest.obj)

/-- decideReplacement from src/commands/install.ts lines 130-146:
localWins skips, repoWins replaces (in both cases without consulting
force or prompting), and only the prompt policy defers to
decideConflict. -/
def decideReplacement (policy : ConflictPolicy) (force : Bool)
    (answer : PromptAnswer) : Option ConflictDecision :=
  match policy with
  | .localWins => some .skip
  | .repoWins => some .replace
  | .prompt => decideConflict force answer

/-- One recorded filesystem mutation (or directory-chain creation). -/
inductive FsAction where
  | backup
  | remove
  | ensureDir
  | link
  | copy
  | copyDeref
deriving DecidableEq

/-- backupAndRemoveExisting from src/commands/install.ts lines 148-161:
nothing in a dry run; otherwise a backup when backups are enabled,
then the removal of the destination. -/
def backupAndRemoveExisting (dryRun backupsEnabled : Bool) : List FsAction :=
  if dryRun then []
  else (if backupsEnabled then [.backup] else []) ++ [.remove]

/-- installOne from src/commands/install.ts lines 163-206.  Note the
parent-directory creation runs before the dry-run check.  symlinkFails
models createSymlink throwing (platform restrictions); the error values
are the exitCodes reaching the command boundary (a rethrown raw error
is coerced to the generic exitCode 1 by VibetoolsError.fromUnknown). -/
def installOne (installMode : InstallMode) (symlinkFallback : SymlinkFallback)
    (dryRun : Bool) (symlinkFails : Bool) (fallbackAnswer : FallbackAnswer) :
    Except Nat (InstallMode × List FsAction) :=
  let pre : List FsAction := [.ensureDir]
  if dryRun then .ok (installMode, pre)
  else
    match installMode with
    | .copy => .ok (.copy, pre ++ [.copy])
    | .symlink =>
        if !symlinkFails then .ok (.symlink, pre ++ [.link])
        else
          match symlinkFallback with
          | .error => .error 1
          | .copy => .ok (.copy, pre ++ [.copy])
          | .prompt =>
              match fallbackAnswer with
              | .copy => .ok (.copy, pre ++ [.copy])
              | .abort => .error 2
              | .cancelled => .error 2

/-- The ok-or-abort result of installEntry. -/
inductive InstallResult where
  | ok
  | abort
deriving DecidableEq

/-- The configuration slice threaded through installEntry. -/
structure InstallCfg where
  policy : ConflictPolicy
  force : Bool
  dryRun : Bool
  backupsEnabled : Bool
  installMode : InstallMode
  symlinkFallback : SymlinkFallback

/-- installEntry from src/commands/install.ts lines 208-275: when the
destination exists, a correctly linked symlink or an identical copy is
skipped; otherwise decideReplacement runs, a skip or abort decision
returns, and anything else (replace, or the undefined decision of a
cancelled prompt) falls through to backup-and-remove followed by
materialization. -/
def installEntry (cfg : InstallCfg) (src dest : EntrySide)
    (answer : PromptAnswer) (symlinkFails : Bool)
    (fallbackAnswer : FallbackAnswer) :
    Except Nat (InstallResult × List FsAction) :=
  if pathExists dest then
    if isCorrectSymlink dest src then .ok (.ok, [])
    else if isIdenticalCopy src dest then .ok (.ok, [])
    else
      let decision := decideReplacement cfg.policy cfg.force answer
      if decision = some .skip then .ok (.ok, [])
      else if decision = some .abort then .ok (.abort, [])
      else
        let pre := backupAndRemoveExisting cfg.dryRun cfg.backupsEnabled
        (installOne cfg.installMode cfg.symlinkFallback cfg.dryRun
            symlinkFails fallbackAnswer).map
          (fun q => (.ok, pre ++ q.2))
  else
    (installOne cfg.installMode cfg.symlinkFallback cfg.dryRun
        symlinkFails fallbackAnswer).map
      (fun q => (.ok, q.2))

/-- The per-entry dynamic inputs of one install iteration. -/
structure EntryEnv where
  src : EntrySide
  dest : EntrySide
  answer : PromptAnswer
  symlinkFails : Bool
  fallbackAnswer : FallbackAnswer

/-- The loop body of installForAgentType (src/commands/install.ts lines
298-325): entries are processed in order and an abort result stops the
loop, leaving the remaining entries unprocessed. -/
def installEntries (cfg : InstallCfg) (env : String → EntryEnv) :
    List String → Except Nat (InstallResult × List FsAction)
  | [] => .ok (.ok, [])
  | n :: rest => do
      let r ← installEntry cfg (env n).src (env n).dest (env n).answer
        (env n).symlinkFails (env n).fallbackAnswer
      if r.1 = .abort then .ok (.abort, r.2)
      else
        let rr ← installEntries cfg env rest
        .ok (rr.1, r.2 ++ rr.2)

/-- installForAgentType from src/commands/install.ts lines 277-328: a
missing local root for the type returns ok immediately; otherwise the
repo listing is taken, filtered, and each surviving name installed. -/
def installForAgentType (cfg : InstallCfg) (localRoot : Option String)
    (repoListing : Option (List String)) (filters : Filters)
    (env : String → EntryEnv) : Except Nat (InstallResult × List FsAction) :=
  match localRoot with
  | none => .ok (.ok, [])
  | some _ =>
      installEntries cfg env (applyFilters (listTopLevelEntries repoListing) filters)

/-! Conflict resolution, collect direction (src/commands/collect.ts). -/

/-- ConflictDecision from src/commands/collect.ts line 49. -/
inductive CollectDecision where
  | imp
  | skip
deriving DecidableEq

/-- decideRepoConflict from src/commands/collect.ts lines 187-249:
force short-circuits to import; the prompt runs with an onCancel
handler (promptOnCancel) that throws the generic exitCode 1, while an
explicit abort choice throws the reserved abort exitCode 2.  The
show-diff loop is folded into the final answer. -/
def decideRepoConflict (force : Bool) (answer : PromptAnswer) :
    Except Nat CollectDecision :=
  if force then .ok .imp
  else
    match answer with
    | .proceed => .ok .imp
    | .skip => .ok .skip
    | .abort => .error 2
    | .cancelled => .error 1

/-- isRepoPointingSymlink from src/commands/collect.ts lines 261-269. -/
def isRepoPointingSymlink (localSide repo : EntrySide) : Bool :=
  if !isSymlink localSide then false else sameRealpath localSide repo

/-- areEntriesEqual from src/commands/collect.ts lines 271-277. -/
def areEntriesEqual (repo localSide : EntrySide) : Bool :=
  areHashesEqual (hashEntry repo.obj) (hashEntry localSide.obj)

/-- The skip-or-proceed outcome of the collect handlers. -/
inductive CollectAction where
  | skip
  | proceed
deriving DecidableEq

/-- maybeBackupAndRemoveRepo from src/commands/collect.ts lines
279-301: nothing when backups are disabled or in a dry run, otherwise a
backup of the repo entry followed by its removal. -/
def maybeBackupAndRemoveRepo (dryRun backupsEnabled : Bool) : List FsAction :=
  if !backupsEnabled || dryRun then [] else [.backup, .remove]

/-- handleRepoExists from src/commands/collect.ts lines 303-353: equal
identities skip before any policy is consulted; repoWins skips; the
prompt policy defers to decideRepoConflict; localWins (and an import
decision) proceeds, backing up and removing the existing repo entry
outside a dry run. -/
def handleRepoExists (policy : ConflictPolicy) (force dryRun backupsEnabled : Bool)
    (repo localSide : EntrySide) (answer : PromptAnswer) :
    Except Nat (CollectAction × List FsAction) :=
  if areEntriesEqual repo localSide then .ok (.skip, [])
  else if policy = .repoWins then .ok (.skip, [])
  else do
    let keep ←
      if policy = .prompt then
        (decideRepoConflict force answer).map (fun d => d == .skip)
      else .ok false
    if keep then .ok (.skip, [])
    else
      let effs := maybeBackupAndRemoveRepo dryRun backupsEnabled ++
        (if !dryRun && !backupsEnabled then [.remove] else [])
      .ok (.proceed, effs)

/-- handleRepoMissing from src/commands/collect.ts lines 355-389:
without importExtras, both repoWins and localWins skip a local-only
entry; the prompt policy asks (as an extra), and importExtras proceeds
without asking. -/
def handleRepoMissing (policy : ConflictPolicy) (force importExtras : Bool)
    (answer : PromptAnswer) : Except Nat CollectAction :=
  if !importExtras && policy = .repoWins then .ok .skip
  else if !importExtras && policy = .localWins then .ok .skip
  else if !importExtras && policy = .prompt then
    (decideRepoConflict force answer).map
      (fun d => if d = .skip then .skip else .proceed)
  else .ok .proceed

/-- The configuration slice threaded through collectEntry. -/
structure CollectCfg where
  policy : ConflictPolicy
  force : Bool
  dryRun : Bool
  importExtras : Bool
  backupsEnabled : Bool

/-- collectEntry from src/commands/collect.ts lines 391-452: a local
symlink already resolving to the repo path is skipped silently; then
the repo-exists or repo-missing handler decides; a skip imports
nothing; a dry run logs instead of copying; otherwise the local entry
is copied (dereferencing symlinks) into the repo.  The Bool result is
whether the entry was collected. -/
def collectEntry (cfg : CollectCfg) (localSide repo : EntrySide)
    (answer : PromptAnswer) : Except Nat (Bool × List FsAction) :=
  if isRepoPointingSymlink localSide repo then .ok (false, [])
  else do
    let a ←
      if pathExists repo then
        handleRepoExists cfg.policy cfg.force cfg.dryRun cfg.backupsEnabled
          repo localSide answer
      else
        (handleRepoMissing cfg.policy cfg.force cfg.importExtras answer).map
          (fun x => (x, []))
    if a.1 = .skip then .ok (false, a.2)
    else if cfg.dryRun then .ok (true, a.2)
    else .ok (true, a.2 ++ [.copyDeref])

/-- The per-type loop body of gatherEntriesFromSource
(src/commands/collect.ts lines 462-495): an unconfigured or absent
local root contributes nothing; otherwise the filtered local listing.
localRootConfigured models agentTypeDir returning a path, and
localListing the pathExists/readdir view of that path. -/
def gatherEntriesFromSource (localRootConfigured : Bool)
    (localListing : Option (List String)) (filters : Filters) : List String :=
  if !localRootConfigured then []
  else
    match localListing with
    | none => []
    | some names => applyFilters (listTopLevelEntries (some names)) filters

/-- The entry classification loop of getTypeStatus
(src/commands/status.ts): the repo entries considered are the filtered
repo listing, and the local-only scan (getLocalOnly) walks the filtered
local listing.  Only the entry-name level is modelled; both roots
absent yield no work. -/
def statusTypeEntryNames (repoListing localListing : Option (List String))
    (filters : Filters) : List String × List String :=
  (applyFilters (listTopLevelEntries repoListing) filters,
   applyFilters (listTopLevelEntries localListing) filters)

/-! General lemmas about the walk-sorting order. -/

theorem pathKey_injective : Function.Injective pathKey :=
  List.map_injective_iff.mpr (fun _ _ h => String.ext h)

theorem keyNe_symm {a b : RelPath × WalkLeaf} (h : keyNe a b) : keyNe b a :=
  fun he => h he.symm

theorem keyLT_of_keyLE_ne {a b : RelPath × WalkLeaf} (h1 : keyLE a b)
    (h2 : keyNe a b) : keyLT a b :=
  lt_of_le_of_ne h1 (fun he => h2 (pathKey_injective he))

theorem pairwise_keyNe_of_perm {l1 l2 : List (RelPath × WalkLeaf)}
    (p : l1.Perm l2) (h : l1.Pairwise keyNe) : l2.Pairwise keyNe :=
  (List.Perm.pairwise_iff (fun hx => keyNe_symm hx) p).mp h

theorem sortWalk_sorted (l : List (RelPath × WalkLeaf)) :
    List.Sorted keyLE (sortWalk l) :=
  List.sorted_insertionSort keyLE l

theorem sortWalk_perm (l : List (RelPath × WalkLeaf)) : (sortWalk l).Perm l :=
  List.perm_insertionSort keyLE l

theorem sorted_keyLT {l : List (RelPath × WalkLeaf)}
    (hs : List.Sorted keyLE l) (hn : l.Pairwise keyNe) : List.Sorted keyLT l :=
  (List.Pairwise.and hs hn).imp (fun h => keyLT_of_keyLE_ne h.1 h.2)

/-- Sorting a list of key-distinct walk results depends only on the
multiset of results, not on their enumeration order. -/
theorem sortWalk_eq_of_perm {l1 l2 : List (RelPath × WalkLeaf)}
    (p : l1.Perm l2) (hn : l2.Pairwise keyNe) : sortWalk l1 = sortWalk l2 := by
  have p1 : (sortWalk l1).Perm l2 := (sortWalk_perm l1).trans p
  have hn1 : (sortWalk l1).Pairwise keyNe := pairwise_keyNe_of_perm p1.symm hn
  have hn2 : (sortWalk l2).Pairwise keyNe :=
    pairwise_keyNe_of_perm (sortWalk_perm l2).symm hn
  exact List.eq_of_perm_of_sorted (r := keyLT)
    (p1.trans (sortWalk_perm l2).symm)
    (sorted_keyLT (sortWalk_sorted l1) hn1)
    (sorted_keyLT (sortWalk_sorted l2) hn2)

/-! Lemmas about the filter engine. -/

theorem splits_self_mem (l : List Char) : (l, ([] : List Char)) ∈ splits l := by
  induction l with
  | nil => simp [splits]
  | cons c rest ih =>
      simp only [splits, List.mem_cons]
      right
      exact List.mem_map.mpr ⟨(rest, []), ih, rfl⟩

/-- The default include pattern matches every name (including names
with a leading dot, since the model has no dot special-casing). -/
theorem globstar_matches (s : List Char) : globMatch "**".data s = true := by
  show globMatch ('*' :: '*' :: []) s = true
  rw [globMatch]
  exact List.any_eq_true.mpr ⟨(s, []), splits_self_mem s, by simp [globMatch]⟩

theorem applyFilters_mem (entries : List String) (f : Filters) (n : String) :
    n ∈ applyFilters entries f ↔
      n ∈ entries ∧
        (f.includeGlobs = [] ∨ ∃ p ∈ f.includeGlobs, globMatch p.data n.data = true) ∧
        (∀ p ∈ f.excludeGlobs, globMatch p.data n.data = false) := by
  unfold applyFilters
  rw [List.mem_filter]
  constructor
  · rintro ⟨hmem, hcond⟩
    rw [Bool.and_eq_true, Bool.not_eq_eq_eq_not, Bool.not_true] at hcond
    obtain ⟨hinc, hexc⟩ := hcond
    refine ⟨hmem, ?_, ?_⟩
    · by_cases he : f.includeGlobs.isEmpty
      · exact Or.inl (List.isEmpty_iff.mp he)
      · simp only [he, if_false] at hinc
        exact Or.inr (List.any_eq_true.mp hinc)
    · intro p hp
      by_cases he : f.excludeGlobs.isEmpty
      · rw [List.isEmpty_iff.mp he] at hp
        exact absurd hp (List.not_mem_nil p)
      · simp only [he, if_false] at hexc
        rcases hx : globMatch p.data n.data with _ | _
        · rfl
        · exact absurd hexc (by simp [List.any_eq_true]; exact ⟨p, hp, hx⟩)
  · rintro ⟨hmem, hinc, hexc⟩
    refine ⟨hmem, ?_⟩
    rw [Bool.and_eq_true, Bool.not_eq_eq_eq_not, Bool.not_true]
    constructor
    · by_cases he : f.includeGlobs.isEmpty
      · simp only [he, if_true]
        exact List.any_eq_true.mpr ⟨"**", List.mem_singleton_self "**", globstar_matches n.data⟩
      · simp only [he, if_false]
        rcases hinc with h | h
        · exact absurd (List.isEmpty_iff.mpr h) he
        · exact List.any_eq_true.mpr h
    · by_cases he : f.excludeGlobs.isEmpty
      · simp [he]
      · simp only [he, if_false]
        exact List.any_eq_false.mpr (fun p hp => by simp [hexc p hp])

/-! Lemmas about well-formedness and the canonical form. -/

theorem bool_eq_of_iff {a b : Bool} (h : a = true ↔ b = true) : a = b := by
  cases a <;> cases b <;> simp_all

theorem nodupNames_iff (l : List String) : nodupNames l = true ↔ l.Nodup := by
  induction l with
  | nil => simp [nodupNames]
  | cons n rest ih => simp [nodupNames, List.nodup_cons, ih]

theorem wfChildren_iff (l : List (String × FSObj)) :
    wfChildren l = true ↔ ∀ x ∈ l, x.2.wf = true := by
  induction l with
  | nil => simp [wfChildren]
  | cons p rest ih =>
      obtain ⟨n, o⟩ := p
      simp [wfChildren, ih, Bool.and_eq_true]

theorem wf_dir_iff {r : Bool} {ch : List (String × FSObj)} :
    (FSObj.dir r ch).wf = true ↔
      r = true ∧ nodupNames (ch.map Prod.fst) = true ∧ wfChildren ch = true := by
  simp [FSObj.wf, Bool.and_eq_true, and_assoc]

theorem canonChildren_eq_map (l : List (String × FSObj)) :
    canonChildren l = l.map (fun p => (p.1, p.2.canon)) := by
  induction l with
  | nil => rfl
  | cons p rest ih =>
      obtain ⟨n, o⟩ := p
      simp [canonChildren, ih]

theorem canonChildren_names (l : List (String × FSObj)) :
    (canonChildren l).map Prod.fst = l.map Prod.fst := by
  rw [canonChildren_eq_map]
  simp

/-! Lemmas about the directory walk. -/

theorem walkObj_key_head {n : String} {o : FSObj} {x : RelPath × WalkLeaf}
    (h : x ∈ walkObj n o) : ∃ p, x.1 = n :: p := by
  cases o with
  | file r c =>
      simp only [walkObj, List.mem_singleton] at h
      exact ⟨[], by rw [h]⟩
  | symlink t =>
      simp only [walkObj, List.mem_singleton] at h
      exact ⟨[], by rw [h]⟩
  | dir r ch =>
      simp only [walkObj, List.mem_map] at h
      obtain ⟨q, _, hq⟩ := h
      exact ⟨q.1, by rw [← hq]⟩

theorem walkChildrenP_key_head {l : List (String × FSObj)} {x : RelPath × WalkLeaf}
    (h : x ∈ walkChildrenP l) : ∃ m p, x.1 = m :: p ∧ m ∈ l.map Prod.fst := by
  induction l with
  | nil => simp [walkChildrenP] at h
  | cons c rest ih =>
      obtain ⟨n, o⟩ := c
      simp only [walkChildrenP, List.mem_append] at h
      rcases h with h | h
      · by_cases hi : isIgnored n
        · simp [hi] at h
        · simp only [hi, if_neg, Bool.false_eq_true, if_false] at h
          obtain ⟨p, hp⟩ := walkObj_key_head h
          exact ⟨n, p, hp, by simp⟩
      · obtain ⟨m, p, hp, hm⟩ := ih h
        exact ⟨m, p, hp, by simp [hm]⟩

mutual
theorem walkObj_nodupKeys : ∀ (n : String) (o : FSObj), o.wf = true →
    (walkObj n o).Pairwise keyNe
  | _, .file _ _, _ => by simp [walkObj]
  | _, .symlink _, _ => by simp [walkObj]
  | n, .dir r ch, h => by
      obtain ⟨-, hnd, hch⟩ := wf_dir_iff.mp h
      have base : (walkChildrenP ch).Pairwise keyNe :=
        walkChildrenP_nodupKeys ch hch hnd
      have hsw : (sortWalk (walkChildrenP ch)).Pairwise keyNe :=
        pairwise_keyNe_of_perm (sortWalk_perm _).symm base
      simp only [walkObj]
      rw [List.pairwise_map]
      exact hsw.imp (fun hab he => hab (List.cons_injective he))
theorem walkChildrenP_nodupKeys : ∀ (l : List (String × FSObj)),
    wfChildren l = true → nodupNames (l.map Prod.fst) = true →
    (walkChildrenP l).Pairwise keyNe
  | [], _, _ => by simp [walkChildrenP]
  | (n, o) :: rest, hwf, hnd => by
      have ho : o.wf = true := by
        have := (wfChildren_iff _).mp hwf (n, o) (by simp)
        exact this
      have hr : wfChildren rest = true := by
        rw [wfChildren_iff] at hwf ⊢
        exact fun x hx => hwf x (by simp [hx])
      have hmem : n ∉ rest.map Prod.fst := by
        have h2 := (nodupNames_iff _).mp hnd
        simp only [List.map_cons, List.nodup_cons] at h2
        exact h2.1
      have hndr : nodupNames (rest.map Prod.fst) = true := by
        rw [nodupNames_iff]
        have h2 := (nodupNames_iff _).mp hnd
        simp only [List.map_cons, List.nodup_cons] at h2
        exact h2.2
      simp only [walkChildrenP]
      rw [List.pairwise_append]
      refine ⟨?_, walkChildrenP_nodupKeys rest hr hndr, ?_⟩
      · by_cases hi : isIgnored n
        · simp [hi]
        · simp only [hi, Bool.false_eq_true, if_false]
          exact walkObj_nodupKeys n o ho
      · intro a ha b hb
        by_cases hi : isIgnored n
        · simp [hi] at ha
        · simp only [hi, Bool.false_eq_true, if_false] at ha
          obtain ⟨p, hp⟩ := walkObj_key_head ha
          obtain ⟨m, q, hq, hm⟩ := walkChildrenP_key_head hb
          intro he
          rw [hp, hq] at he
          cases he
          exact hmem hm
end

theorem wfChildren_perm {l1 l2 : List (String × FSObj)} (p : l1.Perm l2) :
    wfChildren l1 = wfChildren l2 := by
  apply bool_eq_of_iff
  rw [wfChildren_iff, wfChildren_iff]
  exact ⟨fun h x hx => h x (p.mem_iff.mpr hx), fun h x hx => h x (p.mem_iff.mp hx)⟩

mutual
theorem wf_canon : ∀ (o : FSObj), o.canon.wf = o.wf
  | .file _ _ => rfl
  | .symlink _ => rfl
  | .dir r ch => by
      show (FSObj.dir r (List.insertionSort nameLE (canonChildren ch))).wf
        = (FSObj.dir r ch).wf
      have hperm : (List.insertionSort nameLE (canonChildren ch)).Perm
          (canonChildren ch) := List.perm_insertionSort nameLE _
      have hnames : nodupNames
          ((List.insertionSort nameLE (canonChildren ch)).map Prod.fst)
          = nodupNames (ch.map Prod.fst) := by
        apply bool_eq_of_iff
        rw [nodupNames_iff, nodupNames_iff]
        rw [List.Perm.nodup_iff (hperm.map Prod.fst)]
        rw [canonChildren_names]
      have hwfch : wfChildren (List.insertionSort nameLE (canonChildren ch))
          = wfChildren ch := by
        rw [wfChildren_perm hperm, wfChildren_canonChildren ch]
      show (r && nodupNames _ && wfChildren _) = (r && nodupNames _ && wfChildren _)
      rw [hnames, hwfch]
theorem wfChildren_canonChildren : ∀ (l : List (String × FSObj)),
    wfChildren (canonChildren l) = wfChildren l
  | [] => rfl
  | (n, o) :: rest => by
      show (o.canon.wf && wfChildren (canonChildren rest)) = (o.wf && wfChildren rest)
      rw [wf_canon o, wfChildren_canonChildren rest]
end

theorem walkChildrenP_perm {l1 l2 : List (String × FSObj)} (p : l1.Perm l2) :
    (walkChildrenP l1).Perm (walkChildrenP l2) := by
  induction p with
  | nil => exact List.Perm.refl _
  | cons x _ ih =>
      obtain ⟨n, o⟩ := x
      simpa [walkChildrenP] using ih.append_left _
  | swap x y l =>
      obtain ⟨n1, o1⟩ := x
      obtain ⟨n2, o2⟩ := y
      simp only [walkChildrenP]
      rw [← List.append_assoc, ← List.append_assoc]
      exact (List.perm_append_comm).append_right _
  | trans _ _ ih1 ih2 => exact ih1.trans ih2

mutual
theorem walkObj_canon : ∀ (n : String) (o : FSObj), o.wf = true →
    walkObj n o.canon = walkObj n o
  | _, .file _ _, _ => rfl
  | _, .symlink _, _ => rfl
  | n, .dir r ch, h => by
      obtain ⟨-, hnd, hch⟩ := wf_dir_iff.mp h
      show (sortWalk (walkChildrenP (List.insertionSort nameLE (canonChildren ch)))).map _
        = (sortWalk (walkChildrenP ch)).map _
      have e2 : walkChildrenP (canonChildren ch) = walkChildrenP ch :=
        walkChildrenP_canon ch hch
      have p1 : (walkChildrenP (List.insertionSort nameLE (canonChildren ch))).Perm
          (walkChildrenP ch) := by
        rw [← e2]
        exact walkChildrenP_perm (List.perm_insertionSort nameLE _)
      rw [sortWalk_eq_of_perm p1 (walkChildrenP_nodupKeys ch hch hnd)]
theorem walkChildrenP_canon : ∀ (l : List (String × FSObj)),
    wfChildren l = true → walkChildrenP (canonChildren l) = walkChildrenP l
  | [], _ => rfl
  | (n, o) :: rest, h => by
      have ho : o.wf = true := ((wfChildren_iff _).mp h (n, o) (by simp))
      have hr : wfChildren rest = true := by
        rw [wfChildren_iff] at h ⊢
        exact fun x hx => h x (by simp [hx])
      show (if isIgnored n then [] else walkObj n o.canon) ++
          walkChildrenP (canonChildren rest)
        = (if isIgnored n then [] else walkObj n o) ++ walkChildrenP rest
      rw [walkObj_canon n o ho, walkChildrenP_canon rest hr]
end

/-- Sorting the walk of a canonically reordered listing gives the walk
of the original listing: the digest input is fully determined by the
logical content of the directory. -/
theorem sortWalk_canon_children (ch : List (String × FSObj))
    (hch : wfChildren ch = true) (hnd : nodupNames (ch.map Prod.fst) = true) :
    sortWalk (walkChildrenP (List.insertionSort nameLE (canonChildren ch)))
      = sortWalk (walkChildrenP ch) := by
  have e2 : walkChildrenP (canonChildren ch) = walkChildrenP ch :=
    walkChildrenP_canon ch hch
  have p1 : (walkChildrenP (List.insertionSort nameLE (canonChildren ch))).Perm
      (walkChildrenP ch) := by
    rw [← e2]
    exact walkChildrenP_perm (List.perm_insertionSort nameLE _)
  exact sortWalk_eq_of_perm p1 (walkChildrenP_nodupKeys ch hch hnd)

/-! The failure-aware walk agrees with the total walk on well-formed
trees. -/

mutual
theorem walkObjE_wf : ∀ (n : String) (o : FSObj), o.wf = true →
    walkObjE n o = .ok (walkObj n o)
  | n, .file r c, h => by
      have : r = true := h
      subst this
      rfl
  | n, .symlink t, h => by
      cases t with
      | none => exact absurd h (by simp [FSObj.wf])
      | some tg => rfl
  | n, .dir r ch, h => by
      obtain ⟨hr, -, hch⟩ := wf_dir_iff.mp h
      subst hr
      show (walkChildrenE ch).map _ = _
      rw [walkChildrenE_wf ch hch]
      rfl
theorem walkChildrenE_wf : ∀ (l : List (String × FSObj)),
    wfChildren l = true → walkChildrenE l = .ok (walkChildrenP l)
  | [], _ => rfl
  | (n, o) :: rest, h => by
      have ho : o.wf = true := ((wfChildren_iff _).mp h (n, o) (by simp))
      have hr : wfChildren rest = true := by
        rw [wfChildren_iff] at h ⊢
        exact fun x hx => h x (by simp [hx])
      show (do
        let hh ← if isIgnored n then .ok [] else walkObjE n o
        let t ← walkChildrenE rest
        .ok (hh ++ t)) = Except.ok _
      rw [walkChildrenE_wf rest hr]
      by_cases hi : isIgnored n
      · simp only [hi, if_true]
        show Except.ok ([] ++ walkChildrenP rest) = _
        show Except.ok ([] ++ walkChildrenP rest)
          = .ok ((if isIgnored n then [] else walkObj n o) ++ walkChildrenP rest)
        rw [hi]
        rfl
      · simp only [hi, Bool.false_eq_true, if_false]
        rw [walkObjE_wf n o ho]
        show Except.ok (walkObj n o ++ walkChildrenP rest)
          = .ok ((if isIgnored n then [] else walkObj n o) ++ walkChildrenP rest)
        simp [hi]
end

/-- Hashing is invariant under canonicalization of a well-formed tree. -/
theorem hashEntry_canon (o : FSObj) (h : o.wf = true) :
    hashEntry (some o.canon) = hashEntry (some o) := by
  cases o with
  | file r c => rfl
  | symlink t => rfl
  | dir r ch =>
      obtain ⟨hr, hnd, hch⟩ := wf_dir_iff.mp h
      subst hr
      have hcanonwf : (FSObj.dir true ch).canon.wf = true := by
        rw [wf_canon]
        exact h
      have hch2 : wfChildren (List.insertionSort nameLE (canonChildren ch)) = true := by
        have := wf_dir_iff.mp hcanonwf
        exact this.2.2
      unfold hashEntry classifyE
      show (match ((walkChildrenE (List.insertionSort nameLE (canonChildren ch))).map
          (fun l => HashSummary.dir (serializeWalk (sortWalk l)) (sortWalk l).length) :
            Except Unit HashSummary) with
        | .ok s => s
        | .error _ => .missing)
        = (match ((walkChildrenE ch).map
          (fun l => HashSummary.dir (serializeWalk (sortWalk l)) (sortWalk l).length) :
            Except Unit HashSummary) with
        | .ok s => s
        | .error _ => .missing)
      rw [walkChildrenE_wf _ hch2, walkChildrenE_wf _ hch]
      show HashSummary.dir _ _ = HashSummary.dir _ _
      rw [sortWalk_canon_children ch hch hnd]

/-! Lemmas about the conflict resolvers. -/

theorem pathExists_of_isSymlink {e : EntrySide} (h : isSymlink e = true) :
    pathExists e = true := by
  unfold isSymlink at h
  unfold pathExists
  cases ho : e.obj with
  | none => rw [ho] at h; exact absurd h (by simp)
  | some o => simp

/-! Claim theorems. -/

/-- C1, counterexample: an entry pairing whose source and destination
identity summaries are equal (two symlinks with the same dangling
target text) is not skipped by installEntry under policy repoWins: the
destination is backed up, removed, and re-materialized, because
isIdenticalCopy rejects symlinked destinations and the correct-symlink
check fails when realpath throws. -/
theorem installEntry_equal_symlink_identity_replaced :
    (areHashesEqual
        (hashEntry (some (FSObj.symlink (some "/nonexistent"))))
        (hashEntry (some (FSObj.symlink (some "/nonexistent")))) = true) ∧
    installEntry ⟨.repoWins, false, false, true, .symlink, .error⟩
        ⟨some (.symlink (some "/nonexistent")), none⟩
        ⟨some (.symlink (some "/nonexistent")), none⟩
        .proceed false .copy
      = .ok (.ok, [.backup, .remove, .ensureDir, .link]) :=
  ⟨rfl, rfl⟩

/-- C1, amended: for every entry pairing whose source and destination
identity summaries are equal, the resolver action is skip regardless of
policy, force and dry-run, in the collect direction unconditionally
(handleRepoExists and collectEntry), and in the install direction
provided the destination is not a symlink (a symlink destination is
skipped only by the separate correct-symlink realpath check). -/
theorem equal_identity_skip_amended :
    (∀ (cfg : InstallCfg) (src dest : EntrySide) (answer : PromptAnswer)
        (sf : Bool) (fa : FallbackAnswer),
        pathExists dest = true → isSymlink dest = false →
        areHashesEqual (hashEntry src.obj) (hashEntry dest.obj) = true →
        installEntry cfg src dest answer sf fa = .ok (.ok, [])) ∧
    (∀ (policy : ConflictPolicy) (force dryRun backups : Bool)
        (repo localSide : EntrySide) (answer : PromptAnswer),
        areEntriesEqual repo localSide = true →
        handleRepoExists policy force dryRun backups repo localSide answer
          = .ok (.skip, [])) ∧
    (∀ (cfg : CollectCfg) (localSide repo : EntrySide) (answer : PromptAnswer),
        pathExists repo = true →
        areEntriesEqual repo localSide = true →
        collectEntry cfg localSide repo answer = .ok (false, [])) := by
  refine ⟨?_, ?_, ?_⟩
  · intro cfg src dest answer sf fa hpe hsym heq
    simp [installEntry, isCorrectSymlink, isIdenticalCopy, hpe, hsym, heq]
  · intro policy force dryRun backups repo localSide answer heq
    simp [handleRepoExists, heq]
  · intro cfg localSide repo answer hpe heq
    by_cases hs : isRepoPointingSymlink localSide repo
    · simp [collectEntry, hs]
    · simp only [collectEntry, hs, hpe, handleRepoExists, heq, Bool.false_eq_true,
        if_false, if_true]
      rfl

/-- Witness for the amended C1 theorem at concrete inputs: identical
plain-file pairings are skipped with no recorded filesystem action in
both directions, even with force set and a cancelled prompt. -/
theorem equal_identity_skip_amended_witness :
    installEntry ⟨.prompt, true, false, true, .symlink, .error⟩
        ⟨some (.file true "c"), none⟩ ⟨some (.file true "c"), none⟩
        .cancelled false .copy = .ok (.ok, []) ∧
    handleRepoExists .localWins true false true
        ⟨some (.file true "c"), none⟩ ⟨some (.file true "c"), none⟩ .cancelled
      = .ok (.skip, []) ∧
    collectEntry ⟨.localWins, true, false, true, true⟩
        ⟨some (.file true "c"), none⟩ ⟨some (.file true "c"), none⟩ .cancelled
      = .ok (false, []) :=
  ⟨equal_identity_skip_amended.1 _ _ _ _ _ _ rfl rfl rfl,
   equal_identity_skip_amended.2.1 _ _ _ _ _ _ _ rfl,
   equal_identity_skip_amended.2.2 _ _ _ _ rfl rfl⟩

/-- C2, divergence: cancelling the install conflict prompt (policy
prompt, force unset) yields an undefined decision (none), which
installEntry treats as replace, so the run backs up, removes and
re-materializes the destination and completes without an abort; in the
collect direction a cancelled prompt throws the generic exitCode 1
rather than the reserved abort exitCode 2 (which only the explicit
abort choice produces). -/
theorem cancelled_conflict_prompt_divergence :
    decideConflict false .cancelled = none ∧
    installEntry ⟨.prompt, false, false, true, .symlink, .error⟩
        ⟨some (.file true "repo"), some "/r"⟩
        ⟨some (.file true "local"), some "/l"⟩
        .cancelled false .copy
      = .ok (.ok, [.backup, .remove, .ensureDir, .link]) ∧
    decideRepoConflict false .cancelled = .error 1 ∧
    decideRepoConflict false .abort = .error 2 :=
  ⟨rfl, rfl, rfl, rfl⟩

/-- C3, divergence: installOne creates the destination parent directory
chain (ensureDir) before checking the dry-run flag, so a dry-run
install of an entry records a directory-creating filesystem write. -/
theorem dry_run_install_creates_parent_dir :
    installEntry ⟨.repoWins, false, true, true, .symlink, .error⟩
        ⟨some (.file true "repo"), some "/r"⟩ ⟨none, none⟩
        .proceed false .copy = .ok (.ok, [.ensureDir]) ∧
    installOne .symlink .error true false .copy = .ok (.symlink, [.ensureDir]) :=
  ⟨rfl, rfl⟩

/-- C4: on a diverged pairing, policy repoWins resolves to replace in
the install direction (decideReplacement) and to skip with no
filesystem action in the collect direction (handleRepoExists), while
policy localWins resolves to skip in the install direction (installEntry
records no action) and to proceed in the collect direction. -/
theorem policy_direction_resolution :
    (∀ (force : Bool) (answer : PromptAnswer),
        decideReplacement .repoWins force answer = some .replace) ∧
    (∀ (force : Bool) (answer : PromptAnswer),
        decideReplacement .localWins force answer = some .skip) ∧
    (∀ (cfg : InstallCfg) (src dest : EntrySide) (answer : PromptAnswer)
        (sf : Bool) (fa : FallbackAnswer),
        cfg.policy = .localWins →
        pathExists dest = true →
        isCorrectSymlink dest src = false →
        isIdenticalCopy src dest = false →
        installEntry cfg src dest answer sf fa = .ok (.ok, [])) ∧
    (∀ (force dryRun backups : Bool) (repo localSide : EntrySide)
        (answer : PromptAnswer),
        areEntriesEqual repo localSide = false →
        handleRepoExists .repoWins force dryRun backups repo localSide answer
          = .ok (.skip, [])) ∧
    (∀ (force dryRun backups : Bool) (repo localSide : EntrySide)
        (answer : PromptAnswer),
        areEntriesEqual repo localSide = false →
        (handleRepoExists .localWins force dryRun backups repo localSide
            answer).map Prod.fst
          = .ok .proceed) := by
  refine ⟨fun _ _ => rfl, fun _ _ => rfl, ?_, ?_, ?_⟩
  · intro cfg src dest answer sf fa hp hpe hcs hic
    simp [installEntry, hpe, hcs, hic, decideReplacement, hp]
  · intro force dryRun backups repo localSide answer heq
    simp [handleRepoExists, heq]
  · intro force dryRun backups repo localSide answer heq
    simp only [handleRepoExists, heq, Bool.false_eq_true, if_false]
    rfl

/-- Witness for C4 at concrete diverged file pairings. -/
theorem policy_direction_resolution_witness :
    installEntry ⟨.localWins, true, false, true, .symlink, .error⟩
        ⟨some (.file true "repo"), none⟩ ⟨some (.file true "local"), none⟩
        .proceed false .copy = .ok (.ok, []) ∧
    handleRepoExists .repoWins false false true
        ⟨some (.file true "repo"), none⟩ ⟨some (.file true "local"), none⟩
        .proceed = .ok (.skip, []) ∧
    (handleRepoExists .localWins false false true
        ⟨some (.file true "repo"), none⟩ ⟨some (.file true "local"), none⟩
        .proceed).map Prod.fst = .ok .proceed :=
  ⟨policy_direction_resolution.2.2.1 _ _ _ _ _ _ rfl rfl rfl rfl,
   policy_direction_resolution.2.2.2.1 _ _ _ _ _ _ rfl,
   policy_direction_resolution.2.2.2.2 _ _ _ _ _ _ rfl⟩

/-- C5: an install destination that is a symlink whose resolved real
path equals that of the source is skipped with no recorded action,
before and independently of the content-identity comparison, the
policy, the force flag, the dry-run flag and the backup settings. -/
theorem correct_symlink_precedence :
    ∀ (cfg : InstallCfg) (src dest : EntrySide) (answer : PromptAnswer)
      (sf : Bool) (fa : FallbackAnswer),
      isSymlink dest = true → sameRealpath dest src = true →
      installEntry cfg src dest answer sf fa = .ok (.ok, []) := by
  intro cfg src dest answer sf fa h1 h2
  have hpe := pathExists_of_isSymlink h1
  simp [installEntry, isCorrectSymlink, hpe, h1, h2]

/-- Witness for C5: a correctly linked symlink is skipped even under
repoWins with force set, while its content identity (a symlink
summary) differs from the source file identity. -/
theorem correct_symlink_precedence_witness :
    installEntry ⟨.repoWins, true, false, true, .symlink, .error⟩
        ⟨some (.file true "content"), some "/repo/entry"⟩
        ⟨some (.symlink (some "/repo/entry")), some "/repo/entry"⟩
        .proceed false .copy = .ok (.ok, []) :=
  correct_symlink_precedence _ _ _ _ _ _ rfl rfl

/-- C6: with importExtras unset and policy localWins, a local-only
entry (repo side absent) is never imported: handleRepoMissing answers
skip and collectEntry reports not collected with no filesystem action,
for every force, dry-run and backups setting and every prompt answer. -/
theorem local_only_not_imported_without_opt_in :
    (∀ (force : Bool) (answer : PromptAnswer),
        handleRepoMissing .localWins force false answer = .ok .skip) ∧
    (∀ (localSide : EntrySide) (rp : Option String)
        (force dryRun backups : Bool) (answer : PromptAnswer),
        collectEntry ⟨.localWins, force, dryRun, false, backups⟩ localSide
          ⟨none, rp⟩ answer = .ok (false, [])) := by
  constructor
  · intro force answer
    rfl
  · intro localSide rp force dryRun backups answer
    by_cases hs : isRepoPointingSymlink localSide ⟨none, rp⟩
    · simp [collectEntry, hs]
    · simp only [collectEntry, hs, Bool.false_eq_true, if_false]
      rfl

/-- C7: applyFilters keeps a name exactly when it matches at least one
include glob and no exclude glob, an empty include list defaulting to
match-everything and an empty exclude list to match-nothing, with
leading-dot names treated like any other; including the two
specification examples. -/
theorem applyFilters_characterization :
    (∀ (entries : List String) (f : Filters) (n : String),
        n ∈ applyFilters entries f ↔
          n ∈ entries ∧
            (f.includeGlobs = [] ∨
              ∃ p ∈ f.includeGlobs, globMatch p.data n.data = true) ∧
            (∀ p ∈ f.excludeGlobs, globMatch p.data n.data = false)) ∧
    applyFilters ["foo", "bar"] ⟨["foo"], []⟩ = ["foo"] ∧
    applyFilters ["foo", "bar"] ⟨[], ["bar"]⟩ = ["foo"] ∧
    applyFilters [".hidden", "plain"] ⟨[], []⟩ = [".hidden", "plain"] :=
  ⟨applyFilters_mem, by decide, by decide, by decide⟩

/-- C8: the directory identity digest is independent of filesystem
enumeration order: well-formed trees with the same canonical form (the
same logical tree up to the ordering of every directory listing) hash
identically, and a symlink encountered in the walk is recorded by its
target text (arrow plus target), so a dangling symlink still
contributes a deterministic digest. -/
theorem directory_digest_order_independent :
    (∀ (t1 t2 : FSObj), t1.wf = true → t2.wf = true → t1.canon = t2.canon →
        hashEntry (some t1) = hashEntry (some t2)) ∧
    hashEntry (some (.dir true [("l", .symlink (some "missing-target"))]))
      = .dir ("l->missing-target" ++ "
") 1 := by
  constructor
  · intro t1 t2 h1 h2 he
    rw [← hashEntry_canon t1 h1, he, hashEntry_canon t2 h2]
  · rfl

/-- Witness for C8: two enumeration orders of one directory (holding a
plain file and a dangling symlink) yield the same digest. -/
theorem directory_digest_order_independent_witness :
    hashEntry (some (.dir true
        [("a", .file true "x"), ("b", .symlink (some "/dangling"))]))
      = hashEntry (some (.dir true
        [("b", .symlink (some "/dangling")), ("a", .file true "x")])) :=
  directory_digest_order_independent.1 _ _ rfl rfl rfl

/-- C9: hashEntry is a total function that never propagates a failure:
an absent path yields the missing identity, any classification failure
(such as an unreadable file or directory) yields the missing identity,
and a successful classification is returned unchanged. -/
theorem hashEntry_total_missing_on_error :
    hashEntry none = .missing ∧
    (∀ (o : Option FSObj) (e : Unit), classifyE o = .error e →
        hashEntry o = .missing) ∧
    (∀ (o : Option FSObj) (s : HashSummary), classifyE o = .ok s →
        hashEntry o = s) := by
  refine ⟨rfl, ?_, ?_⟩
  · intro o e h
    simp [hashEntry, h]
  · intro o s h
    simp [hashEntry, h]

/-- Witness for C9: an unreadable directory and an unreadable file both
classify as missing. -/
theorem hashEntry_total_missing_on_error_witness :
    hashEntry (some (.dir false [("a", .file true "x")])) = .missing ∧
    hashEntry (some (.file false "secret")) = .missing :=
  ⟨hashEntry_total_missing_on_error.2.1 _ () rfl,
   hashEntry_total_missing_on_error.2.1 _ () rfl⟩

/-- C10: listTopLevelEntries of a non-existent directory is the empty
list, and each driver treats a missing or unconfigured root as an empty
set of entries, completing as a no-op: installForAgentType returns ok
with no actions, gatherEntriesFromSource contributes nothing, and the
status classification has no entries to report. -/
theorem missing_root_yields_empty_noop :
    listTopLevelEntries none = [] ∧
    (∀ (cfg : InstallCfg) (rl : Option (List String)) (f : Filters)
        (env : String → EntryEnv),
        installForAgentType cfg none rl f env = .ok (.ok, [])) ∧
    (∀ (cfg : InstallCfg) (lr : Option String) (f : Filters)
        (env : String → EntryEnv),
        installForAgentType cfg lr none f env = .ok (.ok, [])) ∧
    (∀ (f : Filters), gatherEntriesFromSource true none f = []) ∧
    (∀ (ll : Option (List String)) (f : Filters),
        gatherEntriesFromSource false ll f = []) ∧
    (∀ (f : Filters), statusTypeEntryNames none none f = ([], [])) := by
  refine ⟨rfl, fun _ _ _ _ => rfl, ?_, fun _ => rfl, fun _ _ => rfl, fun _ => rfl⟩
  intro cfg lr f env
  cases lr with
  | none => rfl
  | some r => rfl

end Vibetools
